import Mathlib

/-!
Verification of the splix image-splitting program (`src/main.rs`).

The development shallowly embeds the program's core functions:

* `split_image` (main.rs lines 106-182): the grid planner.  Its per-axis
  offset/length loop becomes `axisSegs`; the shorthand expansion, the
  weight-sum checks and the unit computation become `planAxis` and
  `splitImage`.  The two `process::exit(1)` calls are modelled by returning
  `none`: when `splitImage` evaluates to `none` the real program prints an
  error and aborts the whole process.
* `save_images` (main.rs lines 192-231): the output naming and the
  filesystem interaction.  Path construction becomes `resolveName`; the
  filesystem effects are made explicit by an oracle (`FsOracle`) supplying
  the result of every external call, and the function produces the list of
  observable events (`Ev`) in program order.
* the per-entry body of `main`'s walk loop (lines 246-271) becomes
  `processEntry` over a `CandidateEntry` carrying the results of the
  external `Path::file_stem`, `ImageFormat::from_path` and decode calls
  together with their API contracts (`image::open` resolves the format
  with the same extension-based `from_path`, and a path with a
  recognized extension has a file name, hence a file stem).

Machine integers: the Rust code uses `u32`/`usize`.  All values are
modelled as `Nat`; on every input domain used by the theorems below the
Rust arithmetic cannot overflow (sums are checked against the image
extent before any arithmetic on them, and all later quantities are
bounded by the extent), so the `Nat` model agrees with the `u32` code.
-/

namespace Splix

/-- Pixel rectangle `(x, y, width, height)` as passed to `img.crop` in
`split_image`. -/
structure Rect where
  x : Nat
  y : Nat
  w : Nat
  h : Nat
deriving DecidableEq, Repr

/-- Per-axis segment list of `split_image`'s loop (main.rs 150-175): the
segment for index `i` starts at the running offset `y` and, for every
index but the last, has length `unit * w[i]` (`row_height * rows[i]` resp.
`col_width * cols[j]`); the last segment's length is `extent - y`
(`height - y` resp. `width - x`).  Returns `(offset, length)` pairs. -/
def axisSegs (extent unit : Nat) : List Nat → Nat → List (Nat × Nat)
  | [], _ => []
  | [_], y => [(y, extent - y)]
  | w :: ws, y => (y, unit * w) :: axisSegs extent unit ws (y + unit * w)

/-- One axis of `split_image`: the weight-sum overflow check against the
extent (main.rs 116-130, `process::exit(1)` modelled as `none`), the
shorthand expansion of a length-1 spec `[n]` into `n` weights of 1
(main.rs 132-142), the unit `extent / sum` (main.rs 144-145), and the
segment loop. -/
def planAxis (extent : Nat) (spec : List Nat) : Option (List (Nat × Nat)) :=
  if extent < spec.sum then none
  else
    some (axisSegs extent (extent / spec.sum)
      (if spec.length > 1 then spec else List.replicate (spec.headD 0) 1) 0)

/-- Row-major cross product of row segments and column segments: for each
row segment `(y, h)` and column segment `(x, w)` the rectangle
`(x, y, w, h)` handed to `img.crop` (main.rs 150-179). -/
def crossSegs (rsegs csegs : List (Nat × Nat)) : List Rect :=
  rsegs.flatMap fun r => csegs.map fun c => ⟨c.1, r.1, c.2, r.2⟩

/-- The grid planner `split_image` (main.rs 106-182).  `none` models the
two `process::exit(1)` aborts; otherwise the result is the row-major list
of crop rectangles pushed into `split_images`. -/
def splitImage (width height : Nat) (rows cols : List Nat) :
    Option (List Rect) :=
  if height < rows.sum then none
  else if width < cols.sum then none
  else
    some (crossSegs
      (axisSegs height (height / rows.sum)
        (if rows.length > 1 then rows else List.replicate (rows.headD 0) 1) 0)
      (axisSegs width (width / cols.sum)
        (if cols.length > 1 then cols else List.replicate (cols.headD 0) 1) 0))

/-- The `num_rows` / `num_cols` arguments `main` passes to `save_images`
(main.rs 260-269): `rows.len()` when the spec has more than one entry,
otherwise `rows[0]`. -/
def numSegs (spec : List Nat) : Nat :=
  if spec.length > 1 then spec.length else spec.headD 0

/-- Defaulting of an absent row/column spec in `main`
(main.rs 242-243): `cli.rows.unwrap_or(vec![1])`. -/
def defaultSpec (arg : Option (List Nat)) : List Nat :=
  arg.getD [1]

/-- Relate `splitImage` to the per-axis planner. -/
theorem splitImage_eq_planAxis (width height : Nat) (rows cols : List Nat) :
    splitImage width height rows cols =
      (planAxis height rows).bind fun rsegs =>
        (planAxis width cols).map fun csegs => crossSegs rsegs csegs := by
  unfold splitImage planAxis
  split
  · rfl
  · split <;> rfl

/-- The effective weight list used by `split_image` after shorthand
expansion (main.rs 132-142). -/
def effWeights (spec : List Nat) : List Nat :=
  if spec.length > 1 then spec else List.replicate (spec.headD 0) 1

theorem planAxis_eq (extent : Nat) (spec : List Nat) :
    planAxis extent spec =
      if extent < spec.sum then none
      else some (axisSegs extent (extent / spec.sum) (effWeights spec) 0) := by
  rfl

theorem eq_singleton_of_not_length_gt (spec : List Nat) (hne : spec ≠ [])
    (h : ¬ spec.length > 1) : ∃ n, spec = [n] := by
  match spec, hne with
  | [n], _ => exact ⟨n, rfl⟩
  | a :: b :: t, _ => simp at h

theorem effWeights_sum (spec : List Nat) (hne : spec ≠ []) :
    (effWeights spec).sum = spec.sum := by
  unfold effWeights
  split
  · rfl
  · obtain ⟨n, rfl⟩ := eq_singleton_of_not_length_gt spec hne (by assumption)
    simp [List.sum_replicate]

theorem effWeights_ne_nil (spec : List Nat) (hne : spec ≠ [])
    (hpos : ∀ w ∈ spec, 0 < w) : effWeights spec ≠ [] := by
  unfold effWeights
  split
  · exact hne
  · obtain ⟨n, rfl⟩ := eq_singleton_of_not_length_gt spec hne (by assumption)
    have hn : 0 < n := hpos n (by simp)
    match n, hn with
    | m + 1, _ => simp [List.replicate_succ]

theorem effWeights_length (spec : List Nat) :
    (effWeights spec).length = numSegs spec := by
  unfold effWeights numSegs
  split <;> simp

theorem axisSegs_length (extent unit : Nat) :
    ∀ (ws : List Nat) (y : Nat), (axisSegs extent unit ws y).length = ws.length
  | [], _ => rfl
  | [_], _ => rfl
  | w :: w' :: ws, y => by
    simp only [axisSegs, List.length_cons]
    rw [axisSegs_length extent unit (w' :: ws) (y + unit * w)]
    simp

theorem axisSegs_head (extent unit : Nat) :
    ∀ (ws : List Nat) (y : Nat), ws ≠ [] →
      (axisSegs extent unit ws y).head?.map Prod.fst = some y
  | [], _, h => absurd rfl h
  | [_], _, _ => rfl
  | _ :: _ :: _, _, _ => rfl

theorem axisSegs_chain (extent unit : Nat) :
    ∀ (ws : List Nat) (y : Nat),
      List.Chain' (fun p q => q.1 = p.1 + p.2) (axisSegs extent unit ws y)
  | [], _ => List.chain'_nil
  | [_], _ => List.chain'_singleton _
  | w :: w' :: ws, y => by
    show List.Chain' _ ((y, unit * w) :: axisSegs extent unit (w' :: ws) _)
    rw [List.chain'_cons']
    refine ⟨fun q hq => ?_, axisSegs_chain extent unit (w' :: ws) (y + unit * w)⟩
    have hh := axisSegs_head extent unit (w' :: ws) (y + unit * w) (by simp)
    rw [Option.mem_def] at hq
    rw [hq] at hh
    simpa using hh

theorem axisSegs_sum (extent unit : Nat) :
    ∀ (ws : List Nat) (y : Nat), ws ≠ [] → y + unit * ws.sum ≤ extent →
      ((axisSegs extent unit ws y).map Prod.snd).sum = extent - y
  | [], _, h, _ => absurd rfl h
  | [w], y, _, _ => by simp [axisSegs]
  | w :: w' :: ws, y, _, h => by
    have hsum : y + unit * w + unit * (w' :: ws).sum ≤ extent := by
      rw [List.sum_cons, Nat.mul_add] at h
      omega
    have ih := axisSegs_sum extent unit (w' :: ws) (y + unit * w) (by simp) hsum
    have hle : y + unit * w ≤ extent := le_trans (Nat.le_add_right _ _) hsum
    simp only [axisSegs, List.map_cons, List.sum_cons, ih]
    omega

theorem axisSegs_last (extent unit : Nat) :
    ∀ (ws : List Nat) (y : Nat), ws ≠ [] →
      ∃ o, (axisSegs extent unit ws y).getLast? = some (o, extent - o)
  | [], _, h => absurd rfl h
  | [w], y, _ => ⟨y, rfl⟩
  | w :: w' :: ws, y, _ => by
    obtain ⟨o, ho⟩ := axisSegs_last extent unit (w' :: ws) (y + unit * w) (by simp)
    refine ⟨o, ?_⟩
    show ((y, unit * w) :: axisSegs extent unit (w' :: ws) (y + unit * w)).getLast? = _
    match hx : axisSegs extent unit (w' :: ws) (y + unit * w), ho with
    | b :: t, ho => rw [List.getLast?_cons_cons]; exact ho

theorem crossSegs_length (rsegs csegs : List (Nat × Nat)) :
    (crossSegs rsegs csegs).length = rsegs.length * csegs.length := by
  induction rsegs with
  | nil => simp [crossSegs]
  | cons r rs ih =>
    simp only [crossSegs, List.flatMap_cons, List.length_append, List.length_map,
      List.length_cons] at ih ⊢
    rw [ih, Nat.succ_mul, Nat.add_comm]

theorem planAxis_length (extent : Nat) (spec : List Nat)
    (segs : List (Nat × Nat)) (h : planAxis extent spec = some segs) :
    segs.length = numSegs spec := by
  rw [planAxis_eq] at h
  split at h
  · exact absurd h (by simp)
  · injection h with h
    rw [← h, axisSegs_length, effWeights_length]

/-- Destination file name built by `save_images` (main.rs 215-216) with
the Rust format string "(stem)-r(i)c(j).(ext)"; `Nat.repr` is the decimal
rendering used by Rust's `Display` for integers. -/
def resolveName (stem : String) (i j : Nat) (ext : String) : String :=
  stem ++ "-r" ++ Nat.repr i ++ "c" ++ Nat.repr j ++ "." ++ ext

/-- Destination path: the output directory joined with the tile's file
name (`output_directory.push` / `set_file_name` in main.rs 211-216). -/
def resolvePath (outputDir stem : String) (i j : Nat) (ext : String) :
    String :=
  outputDir ++ "/" ++ resolveName stem i j ext

/-- The destination paths produced by `save_images`' nested loop
(main.rs 213-216) in loop order: row index outer, column index inner. -/
def savePaths (outputDir : String) (numRows numCols : Nat)
    (stem ext : String) : List String :=
  (List.range numRows).flatMap fun i =>
    (List.range numCols).map fun j => resolvePath outputDir stem i j ext

theorem digitChar_facts (m : Nat) (h : m < 10) :
    (Nat.digitChar m).toNat - 48 = m ∧
      Nat.digitChar m ≠ 'c' ∧ Nat.digitChar m ≠ '.' := by
  interval_cases m <;> exact ⟨by decide, by decide, by decide⟩

theorem toDigitsCore_acc_append (fuel : Nat) :
    ∀ (n : Nat) (ds : List Char),
      Nat.toDigitsCore 10 fuel n ds = Nat.toDigitsCore 10 fuel n [] ++ ds := by
  induction fuel with
  | zero => intro n ds; rfl
  | succ f ih =>
    intro n ds
    simp only [Nat.toDigitsCore]
    split
    · rfl
    · rw [ih (n / 10) (Nat.digitChar (n % 10) :: ds),
        ih (n / 10) [Nat.digitChar (n % 10)], List.append_assoc,
        List.singleton_append]

theorem toDigitsCore_digit_chars (fuel : Nat) :
    ∀ (n : Nat) (ds : List Char) (ch : Char),
      ch ∈ Nat.toDigitsCore 10 fuel n ds →
      ch ∈ ds ∨ ∃ m, m < 10 ∧ ch = Nat.digitChar m := by
  induction fuel with
  | zero => intro n ds ch hc; exact Or.inl hc
  | succ f ih =>
    intro n ds ch hc
    simp only [Nat.toDigitsCore] at hc
    split at hc
    · rcases List.mem_cons.mp hc with h | h
      · exact Or.inr ⟨n % 10, Nat.mod_lt _ (by omega), h⟩
      · exact Or.inl h
    · rcases ih (n / 10) (Nat.digitChar (n % 10) :: ds) ch hc with h | h
      · rcases List.mem_cons.mp h with h1 | h1
        · exact Or.inr ⟨n % 10, Nat.mod_lt _ (by omega), h1⟩
        · exact Or.inl h1
      · exact Or.inr h

/-- Decimal value of a digit string, used to invert `Nat.toDigitsCore`. -/
def digitsVal (l : List Char) : Nat :=
  l.foldl (fun a ch => 10 * a + (ch.toNat - 48)) 0

theorem toDigitsCore_val (fuel : Nat) :
    ∀ n : Nat, 0 < fuel → n < 10 ^ fuel →
      digitsVal (Nat.toDigitsCore 10 fuel n []) = n := by
  induction fuel with
  | zero => intro n h _; omega
  | succ f ih =>
    intro n _ hn
    simp only [Nat.toDigitsCore]
    split
    · rename_i h0
      have hv := (digitChar_facts (n % 10) (Nat.mod_lt _ (by omega))).1
      simp only [digitsVal, List.foldl_cons, List.foldl_nil]
      omega
    · rename_i h0
      have hf : 0 < f := by
        rcases Nat.eq_zero_or_pos f with hf0 | hf0
        · subst hf0; simp at hn; omega
        · exact hf0
      have hdiv : n / 10 < 10 ^ f := by
        have hx : n < 10 ^ f * 10 := by rwa [pow_succ] at hn
        omega
      rw [toDigitsCore_acc_append]
      have ihv := ih (n / 10) hf hdiv
      have hv := (digitChar_facts (n % 10) (Nat.mod_lt _ (by omega))).1
      simp only [digitsVal, List.foldl_append, List.foldl_cons,
        List.foldl_nil] at ihv ⊢
      rw [ihv]
      omega

theorem repr_data (n : Nat) : (Nat.repr n).data = Nat.toDigits 10 n := rfl

theorem repr_data_injective (m n : Nat)
    (h : (Nat.repr m).data = (Nat.repr n).data) : m = n := by
  have hm : digitsVal (Nat.toDigits 10 m) = m := by
    have hlt : m < 10 ^ (m + 1) := by
      have h1 := Nat.lt_pow_self (show 1 < 10 by omega) m
      have h2 : 10 ^ m ≤ 10 ^ (m + 1) :=
        Nat.pow_le_pow_right (by omega) (by omega)
      omega
    exact toDigitsCore_val (m + 1) m (by omega) hlt
  have hn : digitsVal (Nat.toDigits 10 n) = n := by
    have hlt : n < 10 ^ (n + 1) := by
      have h1 := Nat.lt_pow_self (show 1 < 10 by omega) n
      have h2 : 10 ^ n ≤ 10 ^ (n + 1) :=
        Nat.pow_le_pow_right (by omega) (by omega)
      omega
    exact toDigitsCore_val (n + 1) n (by omega) hlt
  rw [repr_data, repr_data] at h
  rw [← hm, ← hn, h]

theorem repr_no_c (n : Nat) : 'c' ∉ (Nat.repr n).data := by
  intro hmem
  rw [repr_data] at hmem
  rcases toDigitsCore_digit_chars (n + 1) n [] 'c' hmem with h | ⟨m, hm, he⟩
  · simp at h
  · exact (digitChar_facts m hm).2.1 he.symm

theorem repr_no_dot (n : Nat) : '.' ∉ (Nat.repr n).data := by
  intro hmem
  rw [repr_data] at hmem
  rcases toDigitsCore_digit_chars (n + 1) n [] '.' hmem with h | ⟨m, hm, he⟩
  · simp at h
  · exact (digitChar_facts m hm).2.2 he.symm

theorem append_sep_cancel (sep : Char) :
    ∀ (d1 d2 r1 r2 : List Char), sep ∉ d1 → sep ∉ d2 →
      d1 ++ sep :: r1 = d2 ++ sep :: r2 → d1 = d2 ∧ r1 = r2
  | [], [], r1, r2, _, _, h => ⟨rfl, by simpa using h⟩
  | [], b :: d2, r1, r2, _, h2, h => by
    exfalso
    simp only [List.nil_append, List.cons_append, List.cons.injEq] at h
    exact h2 (by rw [← h.1]; exact List.mem_cons_self _ _)
  | a :: d1, [], r1, r2, h1, _, h => by
    exfalso
    simp only [List.nil_append, List.cons_append, List.cons.injEq] at h
    exact h1 (by rw [h.1]; exact List.mem_cons_self _ _)
  | a :: d1, b :: d2, r1, r2, h1, h2, h => by
    rw [List.cons_append, List.cons_append] at h
    injection h with hab ht
    obtain ⟨hd, hr⟩ := append_sep_cancel sep d1 d2 r1 r2
      (fun hx => h1 (List.mem_cons_of_mem _ hx))
      (fun hx => h2 (List.mem_cons_of_mem _ hx)) ht
    exact ⟨by rw [hab, hd], hr⟩

theorem resolvePath_inj (outputDir stem ext : String) (i j i' j' : Nat)
    (h : resolvePath outputDir stem i j ext =
      resolvePath outputDir stem i' j' ext) : i = i' ∧ j = j' := by
  have hd := congrArg String.data h
  have e1 : ("/" : String).data = ['/'] := rfl
  have e2 : ("-r" : String).data = ['-', 'r'] := rfl
  have e3 : ("c" : String).data = ['c'] := rfl
  have e4 : ("." : String).data = ['.'] := rfl
  simp only [resolvePath, resolveName, String.data_append, e1, e2, e3, e4,
    List.append_assoc, List.cons_append, List.nil_append] at hd
  have hd1 := List.append_cancel_left hd
  injection hd1 with _ hd2
  have hd3 := List.append_cancel_left hd2
  injection hd3 with _ hd4
  injection hd4 with _ hd5
  obtain ⟨hi, hrest⟩ :=
    append_sep_cancel 'c' _ _ _ _ (repr_no_c i) (repr_no_c i') hd5
  obtain ⟨hj, _⟩ :=
    append_sep_cancel '.' _ _ _ _ (repr_no_dot j) (repr_no_dot j') hrest
  exact ⟨repr_data_injective i i' hi, repr_data_injective j j' hj⟩

theorem savePaths_succ_row (outputDir : String) (k m : Nat)
    (stem ext : String) :
    savePaths outputDir (k + 1) m stem ext =
      savePaths outputDir k m stem ext ++
        (List.range m).map fun j => resolvePath outputDir stem k j ext := by
  unfold savePaths
  rw [List.range_succ, List.flatMap_append]
  simp

theorem savePaths_length (outputDir : String) (k m : Nat)
    (stem ext : String) :
    (savePaths outputDir k m stem ext).length = k * m := by
  induction k with
  | zero => simp [savePaths]
  | succ k ih =>
    rw [savePaths_succ_row, List.length_append, ih, List.length_map,
      List.length_range, Nat.succ_mul]

theorem savePaths_getElem (outputDir : String) (k m i j : Nat)
    (stem ext : String) (hi : i < k) (hj : j < m) :
    (savePaths outputDir k m stem ext)[i * m + j]? =
      some (resolvePath outputDir stem i j ext) := by
  induction k with
  | zero => omega
  | succ k ih =>
    rw [savePaths_succ_row]
    by_cases hik : i < k
    · rw [List.getElem?_append, savePaths_length]
      have h1 : i * m + j < (i + 1) * m := by rw [Nat.succ_mul]; omega
      have h2 : (i + 1) * m ≤ k * m := Nat.mul_le_mul hik (le_refl m)
      rw [if_pos (show i * m + j < k * m by omega)]
      exact ih hik
    · have hik' : i = k := by omega
      subst hik'
      rw [List.getElem?_append, savePaths_length]
      rw [if_neg (show ¬ i * m + j < i * m by omega)]
      have harith : i * m + j - i * m = j := by omega
      rw [harith, List.getElem?_map, List.getElem?_range hj]
      rfl

theorem savePaths_nodup (outputDir : String) (k m : Nat)
    (stem ext : String) : (savePaths outputDir k m stem ext).Nodup := by
  unfold savePaths
  rw [List.nodup_flatMap]
  refine ⟨fun i _ => ?_, ?_⟩
  · exact List.Nodup.map
      (fun a b hab => (resolvePath_inj outputDir stem ext i a i b hab).2)
      (List.nodup_range m)
  · refine List.Pairwise.imp ?_ (List.nodup_range k)
    intro a b hab x hx1 hx2
    simp only [List.mem_map, List.mem_range] at hx1 hx2
    obtain ⟨j1, _, he1⟩ := hx1
    obtain ⟨j2, _, he2⟩ := hx2
    exact hab (resolvePath_inj outputDir stem ext a j1 b j2
      (he1.trans he2.symm)).1

/-- Results of the external filesystem calls made by `save_images`,
supplied as an oracle: `exists()`, `create_dir_all`, `remove_file` and
`save_with_format`. -/
structure FsOracle where
  dirExists : Bool
  createOk : Bool
  fileExists : String → Bool
  removeOk : String → Bool
  saveOk : String → Bool

/-- Observable events of `save_images`, in program order. -/
inductive Ev where
  | dirFail : Ev
  | removed (i j : Nat) : Ev
  | rmFail (i j : Nat) : Ev
  | writeAttempt (i j : Nat) (ok : Bool) : Ev
deriving DecidableEq, Repr

/-- Body of `save_images`' inner loop for tile `(i, j)` (main.rs
214-229): build the destination path; if a file already exists there,
remove it first — on removal failure report and `continue`, skipping this
tile's save — then attempt the write. -/
def saveTile (o : FsOracle) (outputDir stem ext : String) (i j : Nat) :
    List Ev :=
  let p := resolvePath outputDir stem i j ext
  if o.fileExists p then
    if o.removeOk p then
      [Ev.removed i j, Ev.writeAttempt i j (o.saveOk p)]
    else [Ev.rmFail i j]
  else [Ev.writeAttempt i j (o.saveOk p)]

/-- `save_images` (main.rs 192-231): if the output directory does not
exist, try to create it, reporting a failure (the code then falls
through to the loop regardless); then iterate over all row and column
indices. -/
def saveImages (o : FsOracle) (outputDir stem ext : String)
    (numRows numCols : Nat) : List Ev :=
  (if o.dirExists then []
   else if o.createOk then [] else [Ev.dirFail]) ++
  ((List.range numRows).flatMap fun i =>
    (List.range numCols).flatMap fun j => saveTile o outputDir stem ext i j)

/-- Result of processing one directory-walk entry in `main`. -/
inductive EntryResult where
  | skipped : EntryResult
  | aborted : EntryResult
  | panicked : EntryResult
  | processed (tiles : List Rect) (stem fmt : String) : EntryResult
deriving DecidableEq, Repr

/-- External view of one candidate path in the batch walk, together
with the API contracts of the external calls `main` makes on it:
`ImageFormat::from_path` is extension-based, the decode result is the
image's dimensions, and — since std's `Path::extension` is carved out of
`Path::file_name` — a path with a recognized extension also has a file
stem (`stem_of_fmt`). -/
structure CandidateEntry where
  fmt : Option String
  stem : Option String
  dims : Option (Nat × Nat)
  stem_of_fmt : fmt.isSome → stem.isSome

/-- `image::open` (main.rs 249): the `image` crate determines the format
with the same extension-based `ImageFormat::from_path` (no content
guessing without `with_guessed_format`, which this program never calls)
and then decodes, so `open` succeeds exactly when the format lookup
succeeds and the contents decode. -/
def imageOpen (e : CandidateEntry) : Option (Nat × Nat) :=
  match e.fmt with
  | none => none
  | some _ => e.dims

/-- Body of `main`'s walk loop for one entry (main.rs 246-271): a decode
failure skips the entry; `split_image` then runs (its `process::exit(1)`
modelled as `aborted`); the two `.unwrap()` calls on `file_stem` and
`ImageFormat::from_path` panic when their result is `none`; otherwise
the entry reaches `save_images`. -/
def processEntry (e : CandidateEntry) (rows cols : List Nat) :
    EntryResult :=
  match imageOpen e with
  | none => .skipped
  | some (width, height) =>
    match splitImage width height rows cols with
    | none => .aborted
    | some tiles =>
      match e.stem with
      | none => .panicked
      | some stem =>
        match e.fmt with
        | none => .panicked
        | some fmt => .processed tiles stem fmt

/-- Entry for the C10 witness: a file photo.png decoding to a 16×16
image. -/
def c10Entry : CandidateEntry :=
  ⟨some "png", some "photo", some (16, 16), fun _ => rfl⟩

/-- Oracle for the C6 scenario: output directory absent, `create_dir_all`
fails, no destination file pre-exists, the save call fails. -/
def c6Oracle : FsOracle :=
  ⟨false, false, fun _ => false, fun _ => true, fun _ => false⟩

/-- Oracle for the C7 witness: every destination path already has a file,
and removing the first tile's path fails. -/
def c7Oracle : FsOracle :=
  ⟨true, true, fun _ => true, fun p => p != "out/img-r0c0.png",
    fun _ => true⟩

end Splix

namespace Splix

/-- C1: for every positive dimension extent and nonempty spec of positive
weights on which the planner does not abort, the per-axis segment list of
`split_image` is contiguous (first segment at offset 0, each following
segment starting where the previous one ends), non-overlapping, its
lengths sum exactly to the extent, and the last segment's length equals
the extent minus the last segment's start offset. -/
theorem c1_axis_segments_tile_extent (extent : Nat) (spec : List Nat)
    (segs : List (Nat × Nat)) (hext : 0 < extent) (hne : spec ≠ [])
    (hpos : ∀ w ∈ spec, 0 < w)
    (hplan : planAxis extent spec = some segs) :
    segs.head?.map Prod.fst = some 0 ∧
    List.Chain' (fun p q => q.1 = p.1 + p.2) segs ∧
    List.Pairwise (fun p q => p.1 + p.2 ≤ q.1) segs ∧
    (segs.map Prod.snd).sum = extent ∧
    ∀ p, segs.getLast? = some p → p.2 = extent - p.1 := by
  rw [planAxis_eq] at hplan
  split at hplan
  · exact absurd hplan (by simp)
  · injection hplan with hseg
    subst hseg
    have heffne := effWeights_ne_nil spec hne hpos
    have hinv : 0 + extent / spec.sum * (effWeights spec).sum ≤ extent := by
      rw [effWeights_sum spec hne, Nat.zero_add]
      exact Nat.div_mul_le_self extent spec.sum
    have hch := axisSegs_chain extent (extent / spec.sum) (effWeights spec) 0
    refine ⟨axisSegs_head _ _ _ _ heffne, hch, ?_, ?_, ?_⟩
    · have hch2 : List.Chain' (fun p q : Nat × Nat => p.1 + p.2 ≤ q.1)
          (axisSegs extent (extent / spec.sum) (effWeights spec) 0) :=
        hch.imp fun a b hab => le_of_eq hab.symm
      haveI : IsTrans (Nat × Nat) (fun p q : Nat × Nat => p.1 + p.2 ≤ q.1) :=
        ⟨fun a b c hab hbc => le_trans hab (le_trans (Nat.le_add_right _ _) hbc)⟩
      exact List.chain'_iff_pairwise.mp hch2
    · rw [axisSegs_sum extent _ _ _ heffne hinv, Nat.sub_zero]
    · obtain ⟨o, ho⟩ := axisSegs_last extent (extent / spec.sum)
        (effWeights spec) 0 heffne
      intro p hp
      rw [ho] at hp
      cases Option.some.inj hp
      rfl

/-- Witness instantiating `c1_axis_segments_tile_extent` at a 16-pixel
axis with spec `[3]`. -/
theorem c1_axis_segments_tile_extent_witness :
    0 < 16 ∧ ([3] : List Nat) ≠ [] ∧ (∀ w ∈ ([3] : List Nat), 0 < w) ∧
      planAxis 16 [3] = some [(0, 5), (5, 5), (10, 6)] ∧
      (([(0, 5), (5, 5), (10, 6)] : List (Nat × Nat)).map Prod.snd).sum = 16 :=
  ⟨by decide, by decide, by decide, by decide,
    (c1_axis_segments_tile_extent 16 [3] [(0, 5), (5, 5), (10, 6)]
      (by decide) (by decide) (by decide) (by decide)).2.2.2.1⟩

/-- C2 counterexample: for a 16-pixel axis with shorthand spec `[17]` the
code does not clamp to 16 one-pixel segments — `split_image` prints an
error and calls `process::exit(1)` (modelled as `none`), and a 16×16
image with row_spec=[17], col_spec=[17] aborts instead of producing 256
1×1 tiles. -/
theorem c2_shorthand_no_clamp_counterexample :
    planAxis 16 [17] = none ∧ splitImage 16 16 [17] [17] = none := by
  decide

/-- C2 amended: for shorthand spec `[n]` with `n > 0`, the planner
returns exactly `n` segments when `n ≤ dimension_extent`; when
`n > dimension_extent` it aborts the process (no segments, no clamping). -/
theorem c2_shorthand_segment_count (n extent : Nat) (hn : 0 < n) :
    (n ≤ extent →
      ∃ segs, planAxis extent [n] = some segs ∧ segs.length = n) ∧
    (extent < n → planAxis extent [n] = none) := by
  constructor
  · intro hle
    refine ⟨axisSegs extent (extent / ([n] : List Nat).sum)
      (effWeights [n]) 0, ?_, ?_⟩
    · rw [planAxis_eq, if_neg (by simp; omega)]
    · rw [axisSegs_length, effWeights_length]
      simp [numSegs]
  · intro hlt
    rw [planAxis_eq, if_pos (by simp; omega)]

/-- Witness instantiating `c2_shorthand_segment_count` at `n = 17`,
`extent = 20`. -/
theorem c2_shorthand_segment_count_witness :
    0 < 17 ∧
      ((17 ≤ 20 →
        ∃ segs, planAxis 20 [17] = some segs ∧ segs.length = 17) ∧
      (20 < 17 → planAxis 20 [17] = none)) :=
  ⟨by decide, c2_shorthand_segment_count 17 20 (by decide)⟩

/-- C3 counterexample: a spec whose total weight exceeds the image
dimension is not accepted by the planner — on a 16×16 image with
row_spec=[17] the program prints an error and calls `process::exit(1)`
(modelled as `none`), aborting the whole batch mid-run. -/
theorem c3_oversized_weights_abort_counterexample :
    splitImage 16 16 [17] [1] = none := by
  decide

/-- C3 amended: besides request-validation failure, `split_image` itself
aborts the entire process — and with it the whole batch, however many
files remain — exactly when the total row weight exceeds the image
height or the total column weight exceeds the image width; for all other
inputs the planner returns a result and does not abort. -/
theorem c3_split_abort_iff (width height : Nat) (rows cols : List Nat) :
    splitImage width height rows cols = none ↔
      height < rows.sum ∨ width < cols.sum := by
  unfold splitImage
  split
  · rename_i h1
    simp [h1]
  · split
    · rename_i h1 h2
      simp [h1, h2]
    · rename_i h1 h2
      simp [h1, h2]

/-- C9: whenever `split_image` returns, the number of sub-images equals
`numSegs rows * numSegs cols` — the same `num_rows` and `num_cols` that
`main` passes to `save_images` — so every index `i * num_cols + j` read
by `save_images` (for `i < num_rows`, `j < num_cols`) is within the
bounds of the returned vector. -/
theorem c9_tile_count_matches_save_loop (width height : Nat)
    (rows cols : List Nat) (l : List Rect)
    (hrne : rows ≠ []) (hcne : cols ≠ [])
    (hrpos : ∀ w ∈ rows, 0 < w) (hcpos : ∀ w ∈ cols, 0 < w)
    (hsplit : splitImage width height rows cols = some l) :
    l.length = numSegs rows * numSegs cols ∧
    ∀ i j, i < numSegs rows → j < numSegs cols →
      i * numSegs cols + j < l.length := by
  rw [splitImage_eq_planAxis] at hsplit
  cases hr : planAxis height rows with
  | none => rw [hr] at hsplit; exact absurd hsplit (by simp)
  | some rsegs =>
    cases hc : planAxis width cols with
    | none => rw [hr, hc] at hsplit; exact absurd hsplit (by simp)
    | some csegs =>
      rw [hr, hc] at hsplit
      simp only [Option.bind_eq_bind, Option.some_bind, Option.map_some] at hsplit
      have hlen : l.length = numSegs rows * numSegs cols := by
        rw [← Option.some.inj hsplit, crossSegs_length,
          planAxis_length height rows rsegs hr,
          planAxis_length width cols csegs hc]
      refine ⟨hlen, fun i j hi hj => ?_⟩
      rw [hlen]
      have h1 : i * numSegs cols + j < (i + 1) * numSegs cols := by
        rw [Nat.succ_mul]
        omega
      have h2 : (i + 1) * numSegs cols ≤ numSegs rows * numSegs cols :=
        Nat.mul_le_mul hi (le_refl _)
      omega

/-- Witness instantiating `c9_tile_count_matches_save_loop` on a 16×16
image with row_spec=[3], col_spec=[5]. -/
theorem c9_tile_count_matches_save_loop_witness :
    ([3] : List Nat) ≠ [] ∧ ([5] : List Nat) ≠ [] ∧
      (∀ w ∈ ([3] : List Nat), 0 < w) ∧ (∀ w ∈ ([5] : List Nat), 0 < w) ∧
      splitImage 16 16 [3] [5] = some
        [⟨0, 0, 3, 5⟩, ⟨3, 0, 3, 5⟩, ⟨6, 0, 3, 5⟩, ⟨9, 0, 3, 5⟩,
         ⟨12, 0, 4, 5⟩, ⟨0, 5, 3, 5⟩, ⟨3, 5, 3, 5⟩, ⟨6, 5, 3, 5⟩,
         ⟨9, 5, 3, 5⟩, ⟨12, 5, 4, 5⟩, ⟨0, 10, 3, 6⟩, ⟨3, 10, 3, 6⟩,
         ⟨6, 10, 3, 6⟩, ⟨9, 10, 3, 6⟩, ⟨12, 10, 4, 6⟩] ∧
      (([⟨0, 0, 3, 5⟩, ⟨3, 0, 3, 5⟩, ⟨6, 0, 3, 5⟩, ⟨9, 0, 3, 5⟩,
         ⟨12, 0, 4, 5⟩, ⟨0, 5, 3, 5⟩, ⟨3, 5, 3, 5⟩, ⟨6, 5, 3, 5⟩,
         ⟨9, 5, 3, 5⟩, ⟨12, 5, 4, 5⟩, ⟨0, 10, 3, 6⟩, ⟨3, 10, 3, 6⟩,
         ⟨6, 10, 3, 6⟩, ⟨9, 10, 3, 6⟩, ⟨12, 10, 4, 6⟩] : List Rect).length =
        numSegs [3] * numSegs [5]) :=
  ⟨by decide, by decide, by decide, by decide, by decide,
    (c9_tile_count_matches_save_loop 16 16 [3] [5] _
      (by decide) (by decide) (by decide) (by decide) (by decide)).1⟩

/-- C4: a 16×16 image with row_spec=[3] and col_spec=[5] splits into
exactly 15 rectangles arranged 3 rows × 5 columns in row-major order;
the first two rows have height 5 and the last height 6, the first four
columns have width 3 and the last width 4. -/
theorem c4_grid_16x16_r3_c5 :
    splitImage 16 16 [3] [5] = some
      [⟨0, 0, 3, 5⟩, ⟨3, 0, 3, 5⟩, ⟨6, 0, 3, 5⟩, ⟨9, 0, 3, 5⟩, ⟨12, 0, 4, 5⟩,
       ⟨0, 5, 3, 5⟩, ⟨3, 5, 3, 5⟩, ⟨6, 5, 3, 5⟩, ⟨9, 5, 3, 5⟩, ⟨12, 5, 4, 5⟩,
       ⟨0, 10, 3, 6⟩, ⟨3, 10, 3, 6⟩, ⟨6, 10, 3, 6⟩, ⟨9, 10, 3, 6⟩,
       ⟨12, 10, 4, 6⟩] := by
  decide

/-- C8: an absent axis spec defaults to `[1]`, and a 16×16 image with
row_spec=[1] and col_spec=[1] produces exactly one tile covering the full
16×16 extent. -/
theorem c8_default_spec_no_split :
    defaultSpec none = [1] ∧
      splitImage 16 16 [1] [1] = some [⟨0, 0, 16, 16⟩] := by
  exact ⟨rfl, by decide⟩

/-- C5: for one source image split into `k` rows and `m` columns,
`save_images` produces `k * m` destination paths; the path for the tile
at row-major position `i * m + j` is the output directory joined with
the file name stem-r(i)c(j).(ext) with zero-based indices, and all the
paths are pairwise distinct. -/
theorem c5_output_paths_format_and_distinct (outputDir stem ext : String)
    (k m : Nat) :
    (savePaths outputDir k m stem ext).length = k * m ∧
    (savePaths outputDir k m stem ext).Nodup ∧
    ∀ i j, i < k → j < m →
      (savePaths outputDir k m stem ext)[i * m + j]? =
        some (outputDir ++ "/" ++
          (stem ++ "-r" ++ Nat.repr i ++ "c" ++ Nat.repr j ++ "." ++ ext)) :=
  ⟨savePaths_length outputDir k m stem ext,
    savePaths_nodup outputDir k m stem ext,
    fun i j hi hj => savePaths_getElem outputDir k m i j stem ext hi hj⟩

/-- Witness instantiating `c5_output_paths_format_and_distinct` on a
2×2 grid, reading the path of tile (1, 1). -/
theorem c5_output_paths_format_and_distinct_witness :
    (savePaths "out" 2 2 "img" "png").Nodup ∧ 1 < 2 ∧
      (savePaths "out" 2 2 "img" "png")[1 * 2 + 1]? =
        some ("out" ++ "/" ++
          ("img" ++ "-r" ++ Nat.repr 1 ++ "c" ++ Nat.repr 1 ++ "." ++
            "png")) :=
  ⟨(c5_output_paths_format_and_distinct "out" "img" "png" 2 2).2.1,
    by decide,
    (c5_output_paths_format_and_distinct "out" "img" "png" 2 2).2.2 1 1
      (by decide) (by decide)⟩

/-- C6 counterexample: with the output directory absent and
`create_dir_all` failing, `save_images` reports the failure but does not
skip the image's tiles — the very next event is a tile write attempt,
because the code falls through after the `eprintln` (main.rs 203-210). -/
theorem c6_dir_failure_counterexample :
    saveImages c6Oracle "out" "img" "png" 1 1 =
      [Ev.dirFail, Ev.writeAttempt 0 0 false] ∧
    Ev.writeAttempt 0 0 false ∈ saveImages c6Oracle "out" "img" "png" 1 1 := by
  constructor
  · decide
  · decide

/-- C6 amended: directory-creation failure is reported exactly once for
the source image, but the image's tiles are not skipped: the loop then
attempts exactly the same tile operations as when the directory exists. -/
theorem c6_dir_failure_reported_once_tiles_attempted (o : FsOracle)
    (outputDir stem ext : String) (numRows numCols : Nat)
    (hdir : o.dirExists = false) (hcreate : o.createOk = false) :
    saveImages o outputDir stem ext numRows numCols =
      Ev.dirFail ::
        saveImages { o with dirExists := true } outputDir stem ext
          numRows numCols := by
  simp [saveImages, saveTile, hdir, hcreate]

/-- Witness instantiating
`c6_dir_failure_reported_once_tiles_attempted` at the C6 oracle. -/
theorem c6_dir_failure_reported_once_tiles_attempted_witness :
    c6Oracle.dirExists = false ∧ c6Oracle.createOk = false ∧
      saveImages c6Oracle "out" "img" "png" 1 1 =
        Ev.dirFail ::
          saveImages { c6Oracle with dirExists := true } "out" "img" "png"
            1 1 :=
  ⟨rfl, rfl,
    c6_dir_failure_reported_once_tiles_attempted c6Oracle "out" "img"
      "png" 1 1 rfl rfl⟩

/-- C7: a tile whose destination path already holds a file has that file
removed before its write is attempted; if the removal fails, the failure
is reported, only that tile's write is skipped (its trace is exactly the
removal-failure report), and every other tile's events still occur in
the image's trace. -/
theorem c7_collision_removal_policy (o : FsOracle)
    (outputDir stem ext : String) (numRows numCols i j : Nat)
    (hi : i < numRows) (hj : j < numCols) :
    (o.fileExists (resolvePath outputDir stem i j ext) = true →
      o.removeOk (resolvePath outputDir stem i j ext) = true →
      saveTile o outputDir stem ext i j =
        [Ev.removed i j,
         Ev.writeAttempt i j
           (o.saveOk (resolvePath outputDir stem i j ext))]) ∧
    (o.fileExists (resolvePath outputDir stem i j ext) = true →
      o.removeOk (resolvePath outputDir stem i j ext) = false →
      saveTile o outputDir stem ext i j = [Ev.rmFail i j]) ∧
    ∀ ev ∈ saveTile o outputDir stem ext i j,
      ev ∈ saveImages o outputDir stem ext numRows numCols := by
  refine ⟨fun h1 h2 => by simp [saveTile, h1, h2],
    fun h1 h2 => by simp [saveTile, h1, h2], fun ev hev => ?_⟩
  unfold saveImages
  apply List.mem_append_right
  rw [List.mem_flatMap]
  exact ⟨i, List.mem_range.mpr hi,
    List.mem_flatMap.mpr ⟨j, List.mem_range.mpr hj, hev⟩⟩

/-- Witness instantiating `c7_collision_removal_policy` at the C7
oracle: tile (0, 0)'s path exists, its removal fails, and the tile's
trace is only the removal-failure report. -/
theorem c7_collision_removal_policy_witness :
    0 < 1 ∧ 0 < 2 ∧
      c7Oracle.fileExists (resolvePath "out" "img" 0 0 "png") = true ∧
      c7Oracle.removeOk (resolvePath "out" "img" 0 0 "png") = false ∧
      saveTile c7Oracle "out" "img" "png" 0 0 = [Ev.rmFail 0 0] :=
  ⟨by decide, by decide, by decide, by decide,
    (c7_collision_removal_policy c7Oracle "out" "img" "png" 1 2 0 0
      (by decide) (by decide)).2.1 (by decide) (by decide)⟩

/-- C10: for every candidate path on which `image::open` succeeds, the
subsequent `file_stem()` and `ImageFormat::from_path` lookups in `main`
also succeed — the `.unwrap()` calls never panic — and the decoded file
is carried through to `save_images` whenever the planner returns (the
planner's own abort on oversized weight sums is the separate C3
finding): `open` determines the format with the same extension-based
`from_path`, so its success entails the format lookup's, and a
recognized extension entails a present file stem. -/
theorem c10_unwraps_never_panic (e : CandidateEntry)
    (rows cols : List Nat) (width height : Nat)
    (hopen : imageOpen e = some (width, height)) :
    (∃ stem fmt, e.stem = some stem ∧ e.fmt = some fmt) ∧
    processEntry e rows cols ≠ EntryResult.panicked ∧
    ∀ tiles, splitImage width height rows cols = some tiles →
      ∃ stem fmt,
        processEntry e rows cols = EntryResult.processed tiles stem fmt := by
  cases hf : e.fmt with
  | none => rw [imageOpen, hf] at hopen; cases hopen
  | some fmt =>
    have hs : e.stem.isSome := e.stem_of_fmt (by rw [hf]; rfl)
    cases hstem : e.stem with
    | none => rw [hstem] at hs; cases hs
    | some stem =>
      refine ⟨⟨stem, fmt, rfl, rfl⟩, ?_, ?_⟩
      · cases hsplit : splitImage width height rows cols with
        | none => simp [processEntry, hopen, hsplit]
        | some tiles => simp [processEntry, hopen, hsplit, hstem, hf]
      · intro tiles hsplit
        exact ⟨stem, fmt, by simp [processEntry, hopen, hsplit, hstem, hf]⟩

/-- Witness instantiating `c10_unwraps_never_panic` on photo.png
decoding to a 16×16 image, split with row_spec=[1], col_spec=[1]. -/
theorem c10_unwraps_never_panic_witness :
    imageOpen c10Entry = some (16, 16) ∧
      ((∃ stem fmt, c10Entry.stem = some stem ∧ c10Entry.fmt = some fmt) ∧
       processEntry c10Entry [1] [1] ≠ EntryResult.panicked ∧
       ∀ tiles, splitImage 16 16 [1] [1] = some tiles →
         ∃ stem fmt,
           processEntry c10Entry [1] [1] =
             EntryResult.processed tiles stem fmt) :=
  ⟨rfl, c10_unwraps_never_panic c10Entry [1] [1] 16 16 rfl⟩

end Splix
